import Mathlib

/-!
Verification of the India VIX calculator (`calculate_vix.py`).

The source manipulates pandas dataframes of option quotes.  We embed a
dataframe row as a record of rational numbers, and the pipeline
(`cubic_spline_correction`, `compute_sigma`, `vix_calculator`) as explicit
state-passing functions: each function returns both its numeric result and
the final state of the caller-visible table (the source mutates the caller's
dataframe in place).  IEEE floats are idealised as `ℚ`; a NaN cell is
modelled as `none : Option ℚ`.  The two transcendental numpy calls
(`np.exp`, `np.sqrt`) are abstracted as function parameters `expFn`/`sqrtFn`
so that every definition stays computable; no claim below depends on their
values.  A Python exception (`KeyError` from a bad `df.loc`, or
`ZeroDivisionError`) is modelled by an overall `none` result.
-/

namespace IndiaVix

/- The Batteries rational arithmetic is `@[irreducible]`; making it
semireducible locally lets concrete witnesses evaluate by `decide`. -/
attribute [local semireducible] Rat.add Rat.mul Rat.inv Rat.sub

/-- One row of the input option chain: the five caller-supplied columns
`Strike`, `Call Bid`, `Call Ask`, `Put Bid`, `Put Ask`. -/
structure OptionRow where
  strike : ℚ
  callBid : ℚ
  callAsk : ℚ
  putBid : ℚ
  putAsk : ℚ
deriving DecidableEq, Repr

/-- `df["Call Mid"] = (df["Call Ask"] + df["Call Bid"]) / 2`. -/
def callMidOf (r : OptionRow) : ℚ := (r.callAsk + r.callBid) / 2

/-- `df["Put Mid"] = (df["Put Ask"] + df["Put Bid"]) / 2`. -/
def putMidOf (r : OptionRow) : ℚ := (r.putAsk + r.putBid) / 2

/-- `df["Call Spread"] = (df["Call Ask"] - df["Call Bid"]) / df["Call Mid"]`.
A zero mid makes the float quotient NaN (0/0, the only case arising from
non-negative quotes with ask ≥ bid), modelled as `none`. -/
def callSpreadOf (r : OptionRow) : Option ℚ :=
  if callMidOf r = 0 then none else some ((r.callAsk - r.callBid) / callMidOf r)

/-- `df["Put Spread"] = (df["Put Ask"] - df["Put Bid"]) / df["Put Mid"]`. -/
def putSpreadOf (r : OptionRow) : Option ℚ :=
  if putMidOf r = 0 then none else some ((r.putAsk - r.putBid) / putMidOf r)

/-- The boolean mask `call_df["Call Spread"] <= 0.3` for one row; a NaN
spread compares false in pandas. -/
def cleanCall (r : OptionRow) : Bool :=
  match callSpreadOf r with
  | some s => decide (s ≤ 3/10)
  | none => false

/-- The boolean mask `put_df["Put Spread"] <= 0.3` for one row. -/
def cleanPut (r : OptionRow) : Bool :=
  match putSpreadOf r with
  | some s => decide (s ≤ 3/10)
  | none => false

/-! ### Natural cubic spline

Modelled from the spec: the source delegates to
`scipy.interpolate.CubicSpline(x, y, bc_type="natural", extrapolate=False)`,
whose semantics (a C² piecewise cubic through the knots with zero second
derivative at both ends, returning NaN strictly outside the knot range) we
reproduce here over `ℚ`.  The second derivatives `M i` at the knots are the
solution of the standard tridiagonal system, solved by the Thomas
algorithm. -/

/-- The interior equations of the natural-spline tridiagonal system, one row
`(a, b, c, d)` per interior knot. -/
def buildRows : List (ℚ × ℚ) → List (ℚ × ℚ × ℚ × ℚ)
  | (x0, y0) :: (x1, y1) :: (x2, y2) :: rest =>
    let h0 := x1 - x0
    let h1 := x2 - x1
    (h0, 2 * (h0 + h1), h1, 6 * ((y2 - y1) / h1 - (y1 - y0) / h0)) ::
      buildRows ((x1, y1) :: (x2, y2) :: rest)
  | _ => []

/-- Forward sweep of the Thomas algorithm: returns the modified
super-diagonal and right-hand side. -/
def sweepFwd : List (ℚ × ℚ × ℚ × ℚ) → ℚ → ℚ → List (ℚ × ℚ)
  | [], _, _ => []
  | (a, b, c, d) :: rest, cp, dp =>
    let m := b - a * cp
    let cp2 := c / m
    let dp2 := (d - a * dp) / m
    (cp2, dp2) :: sweepFwd rest cp2 dp2

/-- Back substitution of the Thomas algorithm, consuming the sweep output in
reverse order. -/
def backSub : List (ℚ × ℚ) → ℚ → List ℚ
  | [], _ => []
  | (cp, dp) :: rest, nxt =>
    let x := dp - cp * nxt
    x :: backSub rest x

/-- Solve the tridiagonal system produced by `buildRows`. -/
def solveTridiag (rows : List (ℚ × ℚ × ℚ × ℚ)) : List ℚ :=
  (backSub (sweepFwd rows 0 0).reverse 0).reverse

/-- Second derivatives of the natural cubic spline at the knots: zero at both
ends, the tridiagonal solution in the interior. -/
def computeM (knots : List (ℚ × ℚ)) : List ℚ :=
  match knots with
  | [] => []
  | [_] => [0]
  | _ => 0 :: solveTridiag (buildRows knots) ++ [0]

/-- Pair every knot with its second derivative.  Padding with `0` (never
exercised: `computeM` has the same length as the knot list) guarantees no
knot is dropped. -/
def attachM : List (ℚ × ℚ) → List ℚ → List (ℚ × ℚ × ℚ)
  | [], _ => []
  | (x, y) :: ps, [] => (x, y, 0) :: attachM ps []
  | (x, y) :: ps, m :: ms => (x, y, m) :: attachM ps ms

/-- Value at `t` of the cubic over one knot interval, expressed through the
endpoint values and second derivatives. -/
def segEval (x0 y0 m0 x1 y1 m1 t : ℚ) : ℚ :=
  let h := x1 - x0
  (m0 * (x1 - t) ^ 3 + m1 * (t - x0) ^ 3) / (6 * h)
    + (y0 / h - m0 * h / 6) * (x1 - t) + (y1 / h - m1 * h / 6) * (t - x0)

/-- Evaluate the piecewise cubic at `t`: `none` (NaN) strictly outside the
knot range, the segment value inside. -/
def splineEvalAux : List (ℚ × ℚ × ℚ) → ℚ → Option ℚ
  | [], _ => none
  | [(x, y, _)], t => if t = x then some y else none
  | (x0, y0, m0) :: (x1, y1, m1) :: rest, t =>
    if t < x0 then none
    else if t ≤ x1 then some (segEval x0 y0 m0 x1 y1 m1 t)
    else splineEvalAux ((x1, y1, m1) :: rest) t

/-- `CubicSpline(x, y, bc_type="natural", extrapolate=False)` evaluated at
`t`. -/
def naturalSplineEval (knots : List (ℚ × ℚ)) (t : ℚ) : Option ℚ :=
  splineEvalAux (attachM knots (computeM knots)) t

/-! ### ATM strike selection and the spline correction -/

/-- `df["Strike"].searchsorted(fut_price) - 1 + 1`: the raw insertion index
(first position whose strike is ≥ the futures price). -/
def atmInsertIdx (df : List OptionRow) (fut : ℚ) : ℕ :=
  (df.map (fun r => r.strike)).findIdx (fun s => decide (fut ≤ s))

/-- `df.loc[searchsorted(fut) - 1, "Strike"]`: the ATM strike.  An insertion
index of `0` makes the row label `-1`, which raises `KeyError` in the
source; that failure is modelled as `none`. -/
def atmStrikeOpt (df : List OptionRow) (fut : ℚ) : Option ℚ :=
  if atmInsertIdx df fut = 0 then none
  else (df.map (fun r => r.strike))[atmInsertIdx df fut - 1]?

/-- The call-side knot points `(Strike, Call Mid)`:
`call_df = df[df["Strike"] >= atm]` filtered by `Call Spread <= 0.3`. -/
def callKnots (df : List OptionRow) (atm : ℚ) : List (ℚ × ℚ) :=
  ((df.filter (fun r => decide (atm ≤ r.strike))).filter (fun r => cleanCall r)).map
    (fun r => (r.strike, callMidOf r))

/-- The put-side knot points `(Strike, Put Mid)`:
`put_df = df[df["Strike"] <= atm]` filtered by `Put Spread <= 0.3`. -/
def putKnots (df : List OptionRow) (atm : ℚ) : List (ℚ × ℚ) :=
  ((df.filter (fun r => decide (r.strike ≤ atm))).filter (fun r => cleanPut r)).map
    (fun r => (r.strike, putMidOf r))

/-- State of one dataframe row after `cubic_spline_correction` returns: the
five input columns plus the four derived columns added by `compute_sigma`,
with `Call Mid` / `Put Mid` overwritten by the spline (or by NaN). -/
structure CorrRow where
  strike : ℚ
  callBid : ℚ
  callAsk : ℚ
  putBid : ℚ
  putAsk : ℚ
  callMid : Option ℚ
  putMid : Option ℚ
  callSpread : Option ℚ
  putSpread : Option ℚ
deriving DecidableEq, Repr

/-- `cubic_spline_correction(df, fut_price)`: pick the ATM strike, then on
each side either refit every row's mid through the clean knots (at least 3
of them) with no extrapolation, or blank the whole column to NaN.  Returns
the mutated table together with the ATM strike; `none` models the `KeyError`
raised when the insertion index is `0`. -/
def cubic_spline_correction (df : List OptionRow) (fut : ℚ) :
    Option (List CorrRow × ℚ) :=
  match atmStrikeOpt df fut with
  | none => none
  | some atm =>
    let cks := callKnots df atm
    let pks := putKnots df atm
    let newCallMid : ℚ → Option ℚ :=
      if 3 ≤ cks.length then fun k => naturalSplineEval cks k else fun _ => none
    let newPutMid : ℚ → Option ℚ :=
      if 3 ≤ pks.length then fun k => naturalSplineEval pks k else fun _ => none
    some (df.map (fun r =>
      ⟨r.strike, r.callBid, r.callAsk, r.putBid, r.putAsk,
        newCallMid r.strike, newPutMid r.strike,
        callSpreadOf r, putSpreadOf r⟩), atm)

/-! ### Strike spacing and the variance sum (`compute_sigma`) -/

/-- `df["diff_K_upper"] = df["Strike"].diff().abs()`: row `i` holds
`|K[i] - K[i-1]|`, NaN at row 0. -/
def diffKUpper (ks : List ℚ) : ℕ → Option ℚ
  | 0 => none
  | i + 1 =>
    match ks[i + 1]?, ks[i]? with
    | some a, some b => some |a - b|
    | _, _ => none

/-- `df["diff_K_lower"] = df["Strike"].diff(-1).abs()`: row `i` holds
`|K[i] - K[i+1]|`, NaN at the last row. -/
def diffKLower (ks : List ℚ) (i : ℕ) : Option ℚ :=
  match ks[i]?, ks[i + 1]? with
  | some a, some b => some |a - b|
  | _, _ => none

/-- The `delta_K` column: the average of the two neighbour distances,
overwritten at row `0` by `diff_K_lower` and then at row `len - 1` by
`diff_K_upper` (so for a single-row table the second overwrite wins). -/
def deltaKcol (ks : List ℚ) (i : ℕ) : Option ℚ :=
  if i = ks.length - 1 then diffKUpper ks i
  else if i = 0 then diffKLower ks i
  else
    match diffKUpper ks i, diffKLower ks i with
    | some a, some b => some ((a + b) / 2)
    | _, _ => none

/-- The `Q` column:
`np.where(Strike < atm, PutMid, np.where(Strike > atm, CallMid, (PutMid + CallMid)/2))`.
NaN operands propagate. -/
def Qrow (atm : ℚ) (r : CorrRow) : Option ℚ :=
  if r.strike < atm then r.putMid
  else if atm < r.strike then r.callMid
  else
    match r.putMid, r.callMid with
    | some p, some c => some ((p + c) / 2)
    | _, _ => none

/-- The `contribution` column:
`(delta_K / (Strike * Strike)) * np.exp(ir * T) * Q`, with `eF` standing for
the scalar `np.exp(ir * T)`.  A NaN factor (or a zero strike) propagates to
NaN. -/
def contribOf (ks : List ℚ) (atm eF : ℚ) (i : ℕ) (r : CorrRow) : Option ℚ :=
  match deltaKcol ks i, Qrow atm r with
  | some d, some q =>
    if r.strike = 0 then none else some (d / (r.strike * r.strike) * eF * q)
  | _, _ => none

/-- State of one dataframe row after `compute_sigma` returns: every column
the source has written to the caller's table. -/
structure FullRow where
  strike : ℚ
  callBid : ℚ
  callAsk : ℚ
  putBid : ℚ
  putAsk : ℚ
  callMid : Option ℚ
  putMid : Option ℚ
  callSpread : Option ℚ
  putSpread : Option ℚ
  qCol : Option ℚ
  diffKUpperCol : Option ℚ
  diffKLowerCol : Option ℚ
  deltaKCol : Option ℚ
  contribCol : Option ℚ
deriving DecidableEq, Repr

/-- Fill the row-position-dependent columns of row `i`. -/
def mkFullRow (ks : List ℚ) (atm eF : ℚ) (i : ℕ) (r : CorrRow) : FullRow :=
  ⟨r.strike, r.callBid, r.callAsk, r.putBid, r.putAsk,
    r.callMid, r.putMid, r.callSpread, r.putSpread,
    Qrow atm r, diffKUpper ks i, diffKLower ks i, deltaKcol ks i,
    contribOf ks atm eF i r⟩

/-- Map a function that also receives the row position, starting at `k`. -/
def mapWithIdx {α β : Type} (f : ℕ → α → β) : ℕ → List α → List β
  | _, [] => []
  | k, a :: l => f k a :: mapWithIdx f (k + 1) l

/-- `compute_sigma(df, mte, fut, ir)`.  Returns the variance together with
the final state of the caller's table.  `df["contribution"].sum()` is the
pandas default `skipna` sum: NaN contributions are silently skipped, which
we model by summing over `filterMap`.  The result is `none` when the ATM
row lookup raises, or when the trailing division is ill-defined (`mte = 0`
or `atm = 0`, which in floats would yield an infinite/NaN variance). -/
def compute_sigma (df : List OptionRow) (mte fut ir : ℚ) (expFn : ℚ → ℚ) :
    Option (ℚ × List FullRow) :=
  match cubic_spline_correction df fut with
  | none => none
  | some (crows, atm) =>
    let ks := df.map (fun r => r.strike)
    let T := mte / 525600
    let eF := expFn (ir * T)
    let fullRows := mapWithIdx (mkFullRow ks atm eF) 0 crows
    let s := (fullRows.filterMap (fun fr => fr.contribCol)).sum
    if T = 0 ∨ atm = 0 then none
    else some ((2 * s - (fut / atm - 1) ^ 2) / T, fullRows)

/-! ### The top-level blend (`vix_calculator`) -/

/-- The input record of `vix_calculator`. -/
structure VixData where
  optionChain1 : List OptionRow
  mte1 : ℚ
  optionChain2 : List OptionRow
  mte2 : ℚ
  fut1 : ℚ
  fut2 : ℚ
  ir1 : ℚ
  ir2 : ℚ

/-- The first blend weight `(mte_2 - MINUTES_IN_30_DAYS) / (mte_2 - mte_1)`
appearing in `vix_calculator`. -/
def weight1 (m1 m2 : ℚ) : ℚ := (m2 - 43200) / (m2 - m1)

/-- The second blend weight `(MINUTES_IN_30_DAYS - mte_1) / (mte_2 - mte_1)`
appearing in `vix_calculator`. -/
def weight2 (m1 m2 : ℚ) : ℚ := (43200 - m1) / (m2 - m1)

/-- `vix_calculator(data)`: run `compute_sigma` on each chain, blend the two
variances to the 30-day horizon, annualise, take the square root and scale
by 100.  The returned triple carries the two mutated caller tables.  `none`
models an exception: a failing ATM lookup in either chain, or the
`ZeroDivisionError` raised when `mte_2 - mte_1 = 0`. -/
def vix_calculator (d : VixData) (expFn sqrtFn : ℚ → ℚ) :
    Option (ℚ × List FullRow × List FullRow) :=
  match compute_sigma d.optionChain1 d.mte1 d.fut1 d.ir1 expFn with
  | none => none
  | some (s1, t1) =>
    match compute_sigma d.optionChain2 d.mte2 d.fut2 d.ir2 expFn with
    | none => none
    | some (s2, t2) =>
      if d.mte2 - d.mte1 = 0 then none
      else
        let t1Y := d.mte1 / 525600
        let t2Y := d.mte2 / 525600
        let sg := sqrtFn ((525600 / 43200) *
          (t1Y * s1 * weight1 d.mte1 d.mte2 + t2Y * s2 * weight2 d.mte1 d.mte2))
        some (100 * sg, t1, t2)

/-! ### Views of the correction output, used to state the claims -/

/-- The corrected table, or `[]` when the correction raises. -/
def correctedRows (df : List OptionRow) (fut : ℚ) : List CorrRow :=
  match cubic_spline_correction df fut with
  | some p => p.1
  | none => []

/-- The ATM strike chosen by the correction, or `0` when it raises. -/
def atmOf (df : List OptionRow) (fut : ℚ) : ℚ :=
  match cubic_spline_correction df fut with
  | some p => p.2
  | none => 0

/-! ### Spec-side definitions

These are written from the spec's wording, to be compared with the code
model above. -/

/-- Strike spacing as the spec words it: interior rows get
`(|K[i]-K[i-1]| + |K[i+1]-K[i]|) / 2`, the first row its distance to the
next strike only, the last row its distance to the previous strike only. -/
def dKspec (ks : List ℚ) (i : ℕ) : Option ℚ :=
  if i = 0 then
    match ks[0]?, ks[1]? with
    | some a, some b => some (b - a)
    | _, _ => none
  else if i = ks.length - 1 then
    match ks[i - 1]?, ks[i]? with
    | some a, some b => some (b - a)
    | _, _ => none
  else
    match ks[i - 1]?, ks[i]?, ks[i + 1]? with
    | some a, some b, some c => some ((|b - a| + |c - b|) / 2)
    | _, _, _ => none

/-- Per-row contribution price as the spec words it: put mid below the ATM
strike, call mid above it, the average of the two at it. -/
def Qspec (atm : ℚ) (r : CorrRow) : ℚ :=
  if r.strike < atm then (r.putMid).getD 0
  else if atm < r.strike then (r.callMid).getD 0
  else ((r.putMid).getD 0 + (r.callMid).getD 0) / 2

/-- The spec's variance formula over a corrected strip:
`(2 * sum((delta_K / strike^2) * exp(ir*T) * Q) - (fut/ATM - 1)^2) / T`
with `T = mte / 525600`. -/
def sigmaSpec (crows : List CorrRow) (atm mte fut ir : ℚ) (expFn : ℚ → ℚ) : ℚ :=
  let T := mte / 525600
  let ks := crows.map (fun r => r.strike)
  (2 * (mapWithIdx
      (fun i r => (dKspec ks i).getD 0 / (CorrRow.strike r) ^ 2
        * expFn (ir * T) * Qspec atm r) 0 crows).sum
    - (fut / atm - 1) ^ 2) / T

/-- The spec's variance formula applied to the strip the correction
produces. -/
def specSigma (df : List OptionRow) (mte fut ir : ℚ) (expFn : ℚ → ℚ) : ℚ :=
  match cubic_spline_correction df fut with
  | some (crows, atm) => sigmaSpec crows atm mte fut ir expFn
  | none => 0

/-! ### Column bookkeeping for the caller's table

`vix_calculator` takes no copy of `data["option_chain_i"]`, so every column
assignment in `compute_sigma` and `cubic_spline_correction` lands on the
caller-owned dataframe. -/

/-- The five caller-supplied columns. -/
def dfColumns : List String := ["Strike", "Call Bid", "Call Ask", "Put Bid", "Put Ask"]

/-- The columns `compute_sigma` (with `cubic_spline_correction`) assigns to
the caller's dataframe, in first-assignment order. -/
def derivedCols : List String :=
  ["Call Mid", "Put Mid", "Call Spread", "Put Spread", "Q",
    "diff_K_upper", "diff_K_lower", "delta_K", "contribution"]

/-- Pandas column insertion: an assignment to an absent column appends it. -/
def colsAfterComputeSigma (cols : List String) : List String :=
  cols ++ derivedCols.filter (fun c => !cols.contains c)

/-- Project a final table row back onto the five input columns. -/
def baseOf (r : FullRow) : OptionRow :=
  ⟨r.strike, r.callBid, r.callAsk, r.putBid, r.putAsk⟩

/-- The pair of caller tables as they stand after `vix_calculator` returns
(unchanged empty tables if the call raised before mutating, a case the
claims below exclude). -/
def vixTables (d : VixData) (expFn sqrtFn : ℚ → ℚ) :
    List FullRow × List FullRow :=
  match vix_calculator d expFn sqrtFn with
  | some (_, t1, t2) => (t1, t2)
  | none => ([], [])

/-! ### Concrete sample inputs -/

/-- A clean five-row strip: every spread is zero, so with a futures price of
`125` the ATM strike is `120`, both sides have exactly three clean knots and
every row's `Q` is defined. -/
def sampleStrip : List OptionRow :=
  [⟨100, 2, 2, 1, 1⟩, ⟨110, 5, 5, 2, 2⟩, ⟨120, 4, 4, 4, 4⟩,
    ⟨130, 3, 3, 7, 7⟩, ⟨140, 1, 1, 9, 9⟩]

/-- A strip whose put side has only two rows at or below the ATM strike
`110` (futures price `115`), hence fewer than three clean put quotes, while
the call side has four clean quotes. -/
def thinPutStrip : List OptionRow :=
  [⟨100, 10, 10, 5, 5⟩, ⟨110, 10, 10, 5, 5⟩, ⟨120, 10, 10, 5, 5⟩,
    ⟨130, 10, 10, 5, 5⟩, ⟨140, 10, 10, 5, 5⟩]

/-- Degenerate expiry spacing: both expiries sit beyond the 30-day horizon
(`mte_1 = 50000 ≥ 43200`), with otherwise well-formed chains. -/
def degenerateVixData : VixData :=
  ⟨sampleStrip, 50000, sampleStrip, 60000, 125, 125, 0, 0⟩

/-! ### Lemmas about the spline evaluator -/

theorem segEval_left (x0 y0 m0 x1 y1 m1 : ℚ) (hne : x0 ≠ x1) :
    segEval x0 y0 m0 x1 y1 m1 x0 = y0 := by
  have h : x1 - x0 ≠ 0 := sub_ne_zero.mpr (Ne.symm hne)
  simp only [segEval]
  field_simp
  ring

theorem segEval_right (x0 y0 m0 x1 y1 m1 : ℚ) (hne : x0 ≠ x1) :
    segEval x0 y0 m0 x1 y1 m1 x1 = y1 := by
  have h : x1 - x0 ≠ 0 := sub_ne_zero.mpr (Ne.symm hne)
  simp only [segEval]
  field_simp
  ring

theorem splineEvalAux_none_of_lt (l : List (ℚ × ℚ × ℚ)) (t : ℚ)
    (h : ∀ p ∈ l, t < p.1) : splineEvalAux l t = none := by
  match l with
  | [] => rfl
  | [(x, y, m)] =>
    have hx : t < x := h (x, y, m) (List.mem_singleton_self _)
    simp [splineEvalAux, ne_of_lt hx]
  | (x0, y0, m0) :: (x1, y1, m1) :: rest =>
    have hx : t < x0 := h (x0, y0, m0) (List.mem_cons_self _ _)
    simp [splineEvalAux, hx]

theorem splineEvalAux_none_of_gt (l : List (ℚ × ℚ × ℚ)) (t : ℚ)
    (h : ∀ p ∈ l, p.1 < t) : splineEvalAux l t = none := by
  match l with
  | [] => rfl
  | [(x, y, m)] =>
    have hx : x < t := h (x, y, m) (List.mem_singleton_self _)
    simp [splineEvalAux, (ne_of_lt hx).symm]
  | (x0, y0, m0) :: (x1, y1, m1) :: rest =>
    have hx0 : x0 < t := h (x0, y0, m0) (List.mem_cons_self _ _)
    have hx1 : x1 < t := h (x1, y1, m1) (List.mem_cons_of_mem _ (List.mem_cons_self _ _))
    have ih := splineEvalAux_none_of_gt ((x1, y1, m1) :: rest) t
      (fun p hp => h p (List.mem_cons_of_mem _ hp))
    simp [splineEvalAux, not_lt.mpr (le_of_lt hx0), not_le.mpr hx1, ih]

theorem splineEvalAux_isSome (l : List (ℚ × ℚ × ℚ)) (t : ℚ)
    (hs : l.Pairwise (fun p q => p.1 < q.1))
    (hlo : ∃ p ∈ l, p.1 ≤ t) (hhi : ∃ p ∈ l, t ≤ p.1) :
    (splineEvalAux l t).isSome = true := by
  match l with
  | [] => simp at hlo
  | [(x, y, m)] =>
    obtain ⟨p, hp, hpl⟩ := hlo
    obtain ⟨q, hq, hql⟩ := hhi
    rw [List.mem_singleton] at hp hq
    subst hp; subst hq
    have : t = x := le_antisymm hql hpl
    simp [splineEvalAux, this]
  | (x0, y0, m0) :: (x1, y1, m1) :: rest =>
    have htail : ∀ p ∈ (x1, y1, m1) :: rest, x0 < p.1 := by
      intro p hp
      exact (List.pairwise_cons.mp hs).1 p hp
    have hx0t : x0 ≤ t := by
      obtain ⟨p, hp, hpl⟩ := hlo
      rcases List.mem_cons.mp hp with h0 | h0
      · rw [h0] at hpl; exact hpl
      · exact le_trans (le_of_lt (htail p h0)) hpl
    by_cases ht1 : t ≤ x1
    · simp [splineEvalAux, not_lt.mpr hx0t, ht1]
    · have hx1t : x1 < t := not_le.mp ht1
      have hup : ∃ p ∈ (x1, y1, m1) :: rest, t ≤ p.1 := by
        obtain ⟨q, hq, hql⟩ := hhi
        rcases List.mem_cons.mp hq with h0 | h0
        · exfalso
          have hx01 : x0 < x1 := htail (x1, y1, m1) (List.mem_cons_self _ _)
          rw [h0] at hql
          exact absurd (lt_of_le_of_lt hql (lt_trans hx01 hx1t)) (lt_irrefl t)
        · exact ⟨q, h0, hql⟩
      have ih := splineEvalAux_isSome ((x1, y1, m1) :: rest) t
        (List.pairwise_cons.mp hs).2
        ⟨(x1, y1, m1), List.mem_cons_self _ _, le_of_lt hx1t⟩ hup
      simpa [splineEvalAux, not_lt.mpr hx0t, ht1] using ih

theorem splineEvalAux_mem (l : List (ℚ × ℚ × ℚ)) (x y m : ℚ)
    (hs : l.Pairwise (fun p q => p.1 < q.1)) (hm : (x, y, m) ∈ l) :
    splineEvalAux l x = some y := by
  match l with
  | [] => simp at hm
  | [(x1, y1, m1)] =>
    rw [List.mem_singleton] at hm
    obtain ⟨h1, h2, h3⟩ := Prod.mk.injEq .. ▸ hm
    simp_all [splineEvalAux]
  | (x0, y0, m0) :: (x1, y1, m1) :: rest =>
    have hlt01 : x0 < x1 :=
      (List.pairwise_cons.mp hs).1 (x1, y1, m1) (List.mem_cons_self _ _)
    rcases List.mem_cons.mp hm with h0 | h0
    · have hx : x = x0 := congrArg Prod.fst h0
      have hy : y = y0 := congrArg (fun p => p.2.1) h0
      subst hx; subst hy
      simp [splineEvalAux, le_of_lt hlt01, segEval_left _ _ _ _ _ _ (ne_of_lt hlt01)]
    · have hx1x : x1 ≤ x := by
        rcases List.mem_cons.mp h0 with h1 | h1
        · exact le_of_eq (congrArg Prod.fst h1).symm
        · exact le_of_lt
            ((List.pairwise_cons.mp (List.pairwise_cons.mp hs).2).1 _ h1)
      have hx0 : ¬ x < x0 := not_lt.mpr (le_of_lt (lt_of_lt_of_le hlt01 hx1x))
      by_cases hxx1 : x ≤ x1
      · have hxeq : x = x1 := le_antisymm hxx1 hx1x
        have heq : (x, y, m) = (x1, y1, m1) := by
          rcases List.mem_cons.mp h0 with h1 | h1
          · exact h1
          · exfalso
            have : x1 < x :=
              (List.pairwise_cons.mp (List.pairwise_cons.mp hs).2).1 _ h1
            exact absurd (hxeq ▸ this) (lt_irrefl x1)
        have hy : y = y1 := congrArg (fun p => p.2.1) heq
        subst hy
        simp [splineEvalAux, hx0, hxx1, hxeq, le_of_lt hlt01,
          segEval_right _ _ _ _ _ _ (ne_of_lt hlt01)]
      · have ih := splineEvalAux_mem ((x1, y1, m1) :: rest) x y m
          (List.pairwise_cons.mp hs).2 h0
        simpa [splineEvalAux, hx0, hxx1] using ih


theorem attachM_map_fst (knots : List (ℚ × ℚ)) (ms : List ℚ) :
    (attachM knots ms).map (fun p => p.1) = knots.map (fun p => p.1) := by
  induction knots generalizing ms with
  | nil => cases ms <;> rfl
  | cons p ps ih =>
    obtain ⟨x, y⟩ := p
    cases ms with
    | nil => simpa [attachM] using ih []
    | cons m ms2 => simpa [attachM] using ih ms2

theorem attachM_mem (knots : List (ℚ × ℚ)) (ms : List ℚ) (x y : ℚ)
    (h : (x, y) ∈ knots) : ∃ m, (x, y, m) ∈ attachM knots ms := by
  induction knots generalizing ms with
  | nil => simp at h
  | cons p ps ih =>
    obtain ⟨x0, y0⟩ := p
    rcases List.mem_cons.mp h with h0 | h0
    · obtain ⟨hx, hy⟩ := Prod.mk.injEq .. ▸ h0
      subst hx; subst hy
      cases ms with
      | nil => exact ⟨0, List.mem_cons_self _ _⟩
      | cons m ms2 => exact ⟨m, List.mem_cons_self _ _⟩
    · cases ms with
      | nil =>
        obtain ⟨m, hm⟩ := ih [] h0
        exact ⟨m, List.mem_cons_of_mem _ hm⟩
      | cons m0 ms2 =>
        obtain ⟨m, hm⟩ := ih ms2 h0
        exact ⟨m, List.mem_cons_of_mem _ hm⟩

theorem attachM_pairwise (knots : List (ℚ × ℚ)) (ms : List ℚ)
    (hs : knots.Pairwise (fun p q => p.1 < q.1)) :
    (attachM knots ms).Pairwise (fun p q => p.1 < q.1) := by
  have h1 : List.Pairwise (· < ·) ((attachM knots ms).map (fun p => p.1)) := by
    rw [attachM_map_fst]
    exact (List.pairwise_map).mpr hs
  exact (List.pairwise_map).mp h1

theorem attachM_fst_mem (knots : List (ℚ × ℚ)) (ms : List ℚ)
    (p : ℚ × ℚ × ℚ) (hp : p ∈ attachM knots ms) :
    ∃ q ∈ knots, q.1 = p.1 := by
  have h1 : p.1 ∈ (attachM knots ms).map (fun r => r.1) := List.mem_map_of_mem _ hp
  rw [attachM_map_fst] at h1
  obtain ⟨q, hq, hqe⟩ := List.mem_map.mp h1
  exact ⟨q, hq, hqe⟩

/-- The natural spline interpolates exactly through each of its knots. -/
theorem naturalSplineEval_knot (knots : List (ℚ × ℚ)) (x y : ℚ)
    (hs : knots.Pairwise (fun p q => p.1 < q.1)) (hm : (x, y) ∈ knots) :
    naturalSplineEval knots x = some y := by
  obtain ⟨m, hmem⟩ := attachM_mem knots (computeM knots) x y hm
  exact splineEvalAux_mem _ x y m (attachM_pairwise _ _ hs) hmem

/-- The natural spline with extrapolation disabled is defined exactly on the
closed interval spanned by its knots. -/
theorem naturalSplineEval_isSome_iff (knots : List (ℚ × ℚ)) (t : ℚ)
    (hs : knots.Pairwise (fun p q => p.1 < q.1)) :
    (naturalSplineEval knots t).isSome = true ↔
      (∃ p ∈ knots, p.1 ≤ t) ∧ (∃ p ∈ knots, t ≤ p.1) := by
  constructor
  · intro h
    by_contra hcon
    rw [not_and_or] at hcon
    rcases hcon with hno | hno
    · push_neg at hno
      have hnone : naturalSplineEval knots t = none := by
        apply splineEvalAux_none_of_lt
        intro p hp
        obtain ⟨q, hq, hqe⟩ := attachM_fst_mem knots (computeM knots) p hp
        exact hqe ▸ hno q hq
      rw [hnone] at h
      simp at h
    · push_neg at hno
      have hnone : naturalSplineEval knots t = none := by
        apply splineEvalAux_none_of_gt
        intro p hp
        obtain ⟨q, hq, hqe⟩ := attachM_fst_mem knots (computeM knots) p hp
        exact hqe ▸ hno q hq
      rw [hnone] at h
      simp at h
  · rintro ⟨⟨p, hp, hpl⟩, ⟨q, hq, hql⟩⟩
    apply splineEvalAux_isSome _ t (attachM_pairwise _ _ hs)
    · obtain ⟨mp, hmp⟩ := attachM_mem knots (computeM knots) p.1 p.2 hp
      exact ⟨(p.1, p.2, mp), hmp, hpl⟩
    · obtain ⟨mq, hmq⟩ := attachM_mem knots (computeM knots) q.1 q.2 hq
      exact ⟨(q.1, q.2, mq), hmq, hql⟩


/-! ### Lemmas about the ATM strike selection -/

theorem atmStrikeOpt_spec (df : List OptionRow) (fut : ℚ)
    (hne : df ≠ [])
    (hfut : ((df.map (fun r => r.strike)).headD 0) < fut) :
    ∃ k, atmStrikeOpt df fut = some k ∧ k ∈ df.map (fun r => r.strike) ∧ k < fut ∧
      (List.Sorted (· < ·) (df.map (fun r => r.strike)) →
        ∀ s ∈ df.map (fun r => r.strike), s < fut → s ≤ k) := by
  set ks := df.map (fun r => r.strike) with hks
  set p := (fun s : ℚ => decide (fut ≤ s)) with hp
  have hlen : 0 < ks.length := by
    simp [hks, List.length_pos_iff_ne_nil, hne]
  have hhead : ks.headD 0 = ks.get ⟨0, hlen⟩ := by
    match ks, hlen with
    | a :: t, _ => rfl
  have h0 : p (ks.get ⟨0, hlen⟩) = false := by
    rw [← hhead]
    simp only [hp, decide_eq_false_iff_not, not_le]
    exact hfut
  have hi1 : 1 ≤ ks.findIdx p := by
    rcases Nat.eq_zero_or_pos (ks.findIdx p) with hz | hpos
    · exfalso
      have hfe := (@List.findIdx_eq _ p ks 0 hlen).mp hz
      have h1 := hfe.1
      rw [List.get_eq_getElem] at h0
      simp only [h0] at h1
      exact absurd h1 (by simp)
    · exact hpos
  have hile : ks.findIdx p ≤ ks.length := List.findIdx_le_length p
  have him1 : ks.findIdx p - 1 < ks.length := by omega
  have hidx : atmInsertIdx df fut = ks.findIdx p := rfl
  have hne0 : atmInsertIdx df fut ≠ 0 := by
    rw [hidx]
    omega
  have hval : atmStrikeOpt df fut = some (ks.get ⟨ks.findIdx p - 1, him1⟩) := by
    unfold atmStrikeOpt
    rw [if_neg hne0, ← hks, hidx, List.getElem?_eq_getElem him1,
      List.get_eq_getElem]
  refine ⟨ks.get ⟨ks.findIdx p - 1, him1⟩, hval, List.get_mem ks _ _, ?_, ?_⟩
  · have hnot : p (ks.get ⟨ks.findIdx p - 1, him1⟩) = false := by
      have h2 : ks.findIdx p - 1 < ks.findIdx p := by omega
      exact List.not_of_lt_findIdx h2
    simpa [hp, decide_eq_false_iff_not, not_le] using hnot
  · intro hsort s hs hslt
    obtain ⟨⟨j, hj⟩, hjv⟩ := List.mem_iff_get.mp hs
    by_cases hji : j ≤ ks.findIdx p - 1
    · rcases Nat.lt_or_ge j (ks.findIdx p - 1) with hlt | hge
      · have hrel := hsort.rel_get_of_lt
          (a := ⟨j, hj⟩) (b := ⟨ks.findIdx p - 1, him1⟩) (Fin.mk_lt_mk.mpr hlt)
        rw [hjv] at hrel
        exact le_of_lt hrel
      · have hjeq : j = ks.findIdx p - 1 := le_antisymm hji hge
        subst hjeq
        rw [← hjv]
    · exfalso
      have hiin : ks.findIdx p < ks.length := by omega
      have hple : fut ≤ ks.get ⟨ks.findIdx p, hiin⟩ := by
        have hgot := @List.findIdx_getElem _ p ks hiin
        rw [List.get_eq_getElem]
        simpa [hp] using hgot
      have hmono : ks.get ⟨ks.findIdx p, hiin⟩ ≤ ks.get ⟨j, hj⟩ := by
        rcases Nat.lt_or_ge (ks.findIdx p) j with hlt | hge
        · exact le_of_lt (hsort.rel_get_of_lt
            (a := ⟨ks.findIdx p, hiin⟩) (b := ⟨j, hj⟩) (Fin.mk_lt_mk.mpr hlt))
        · have hje : j = ks.findIdx p := by omega
          subst hje
          rfl
      rw [hjv] at hmono
      exact absurd (lt_of_le_of_lt (le_trans hple hmono) hslt) (lt_irrefl fut)

theorem atmStrikeOpt_none_of_le (df : List OptionRow) (fut : ℚ)
    (hle : fut ≤ ((df.map (fun r => r.strike)).headD 0)) :
    atmStrikeOpt df fut = none := by
  unfold atmStrikeOpt
  rw [if_pos]
  cases df with
  | nil => rfl
  | cons a t =>
    have : decide (fut ≤ a.strike) = true := by
      simpa using hle
    simp [atmInsertIdx, List.findIdx_cons, this]

/-! ### Lemmas about the correction and the variance sum -/

theorem cubic_spline_correction_eq (df : List OptionRow) (fut atm : ℚ)
    (h : atmStrikeOpt df fut = some atm) :
    cubic_spline_correction df fut = some (df.map (fun r =>
      ⟨r.strike, r.callBid, r.callAsk, r.putBid, r.putAsk,
        (if 3 ≤ (callKnots df atm).length
          then fun k => naturalSplineEval (callKnots df atm) k
          else fun _ => none) r.strike,
        (if 3 ≤ (putKnots df atm).length
          then fun k => naturalSplineEval (putKnots df atm) k
          else fun _ => none) r.strike,
        callSpreadOf r, putSpreadOf r⟩), atm) := by
  unfold cubic_spline_correction
  rw [h]

theorem cubic_spline_correction_none (df : List OptionRow) (fut : ℚ)
    (h : atmStrikeOpt df fut = none) :
    cubic_spline_correction df fut = none := by
  unfold cubic_spline_correction
  rw [h]

theorem compute_sigma_none (df : List OptionRow) (mte fut ir : ℚ)
    (expFn : ℚ → ℚ) (h : cubic_spline_correction df fut = none) :
    compute_sigma df mte fut ir expFn = none := by
  unfold compute_sigma
  rw [h]

theorem corr_strikes (df : List OptionRow) (fut : ℚ) (crows : List CorrRow)
    (atm : ℚ) (h : cubic_spline_correction df fut = some (crows, atm)) :
    crows.map (fun r => r.strike) = df.map (fun r => r.strike) := by
  match hh : atmStrikeOpt df fut with
  | none => rw [cubic_spline_correction_none df fut hh] at h; exact absurd h (by simp)
  | some a =>
    rw [cubic_spline_correction_eq df fut a hh] at h
    have h1 : crows = df.map (fun r =>
      (⟨r.strike, r.callBid, r.callAsk, r.putBid, r.putAsk,
        (if 3 ≤ (callKnots df a).length
          then fun k => naturalSplineEval (callKnots df a) k
          else fun _ => none) r.strike,
        (if 3 ≤ (putKnots df a).length
          then fun k => naturalSplineEval (putKnots df a) k
          else fun _ => none) r.strike,
        callSpreadOf r, putSpreadOf r⟩ : CorrRow)) :=
      (congrArg Prod.fst (Option.some.injEq .. ▸ h)).symm
    rw [h1, List.map_map]
    rfl

/-! ### Lemmas about the strike spacing -/

theorem sorted_getElem_lt (ks : List ℚ) (hs : List.Sorted (· < ·) ks)
    (i j : ℕ) (hij : i < j) (hj : j < ks.length) :
    ks.getD i 0 < ks.getD j 0 := by
  have hi : i < ks.length := lt_trans hij hj
  have h1 := (List.pairwise_iff_getElem.mp hs) i j hi hj hij
  rw [List.getD_eq_getElem?_getD, List.getD_eq_getElem?_getD,
    List.getElem?_eq_getElem hi, List.getElem?_eq_getElem hj]
  exact h1

theorem deltaKcol_zero (ks : List ℚ) (h2 : 2 ≤ ks.length)
    (hs : List.Sorted (· < ·) ks) :
    deltaKcol ks 0 = some (ks.getD 1 0 - ks.getD 0 0) := by
  have h0 : 0 < ks.length := by omega
  have h1 : 1 < ks.length := by omega
  have hlt : ks.getD 0 0 < ks.getD 1 0 := sorted_getElem_lt ks hs 0 1 (by omega) h1
  unfold deltaKcol
  rw [if_neg (by omega), if_pos rfl]
  show (match ks[0]?, ks[1]? with
    | some a, some b => some |a - b|
    | _, _ => none) = some (ks.getD 1 0 - ks.getD 0 0)
  rw [List.getElem?_eq_getElem h0, List.getElem?_eq_getElem h1]
  rw [List.getD_eq_getElem?_getD, List.getD_eq_getElem?_getD,
    List.getElem?_eq_getElem h0, List.getElem?_eq_getElem h1] at hlt
  simp only [Option.getD_some] at hlt
  have habs : |ks[0] - ks[1]| = ks[1] - ks[0] := by
    rw [abs_sub_comm]
    exact abs_of_nonneg (sub_nonneg.mpr (le_of_lt hlt))
  simp [habs, List.getElem?_eq_getElem h0, List.getElem?_eq_getElem h1]

theorem deltaKcol_last (ks : List ℚ) (h2 : 2 ≤ ks.length)
    (hs : List.Sorted (· < ·) ks) :
    deltaKcol ks (ks.length - 1) =
      some (ks.getD (ks.length - 1) 0 - ks.getD (ks.length - 2) 0) := by
  have hlt : ks.getD (ks.length - 2) 0 < ks.getD (ks.length - 1) 0 :=
    sorted_getElem_lt ks hs (ks.length - 2) (ks.length - 1) (by omega) (by omega)
  unfold deltaKcol
  rw [if_pos rfl]
  obtain ⟨j, hj⟩ : ∃ j, ks.length - 1 = j + 1 := ⟨ks.length - 2, by omega⟩
  have hj2 : ks.length - 2 = j := by omega
  rw [hj, hj2] at hlt ⊢
  have hjl : j < ks.length := by omega
  have hj1l : j + 1 < ks.length := by omega
  show (match ks[j + 1]?, ks[j]? with
    | some a, some b => some |a - b|
    | _, _ => none) = some (ks.getD (j + 1) 0 - ks.getD j 0)
  rw [List.getElem?_eq_getElem hj1l, List.getElem?_eq_getElem hjl]
  rw [List.getD_eq_getElem?_getD, List.getD_eq_getElem?_getD,
    List.getElem?_eq_getElem hjl, List.getElem?_eq_getElem hj1l] at hlt
  simp only [Option.getD_some] at hlt
  have habs : |ks[j + 1] - ks[j]| = ks[j + 1] - ks[j] :=
    abs_of_nonneg (sub_nonneg.mpr (le_of_lt hlt))
  simp [habs, List.getElem?_eq_getElem hjl, List.getElem?_eq_getElem hj1l]

theorem deltaKcol_mid (ks : List ℚ) (j : ℕ) (hin : j + 1 + 1 < ks.length) :
    deltaKcol ks (j + 1) =
      some ((|ks.getD (j + 1) 0 - ks.getD j 0| +
        |ks.getD (j + 1) 0 - ks.getD (j + 1 + 1) 0|) / 2) := by
  have hj : j < ks.length := by omega
  have hj1 : j + 1 < ks.length := by omega
  have hj2 : j + 1 + 1 < ks.length := hin
  have hu : diffKUpper ks (j + 1) = some |ks.getD (j + 1) 0 - ks.getD j 0| := by
    show (match ks[j + 1]?, ks[j]? with
      | some a, some b => some |a - b|
      | _, _ => none) = some |ks.getD (j + 1) 0 - ks.getD j 0|
    rw [List.getElem?_eq_getElem hj1, List.getElem?_eq_getElem hj]
    simp [List.getD_eq_getElem?_getD, List.getElem?_eq_getElem hj1,
      List.getElem?_eq_getElem hj]
  have hl : diffKLower ks (j + 1) =
      some |ks.getD (j + 1) 0 - ks.getD (j + 1 + 1) 0| := by
    show (match ks[j + 1]?, ks[j + 1 + 1]? with
      | some a, some b => some |a - b|
      | _, _ => none) = some |ks.getD (j + 1) 0 - ks.getD (j + 1 + 1) 0|
    rw [List.getElem?_eq_getElem hj1, List.getElem?_eq_getElem hj2]
    simp [List.getD_eq_getElem?_getD, List.getElem?_eq_getElem hj1,
      List.getElem?_eq_getElem hj2]
  unfold deltaKcol
  rw [if_neg (by omega), if_neg (by omega), hu, hl]

theorem dKspec_zero (ks : List ℚ) (h2 : 2 ≤ ks.length) :
    dKspec ks 0 = some (ks.getD 1 0 - ks.getD 0 0) := by
  have h0 : 0 < ks.length := by omega
  have h1 : 1 < ks.length := by omega
  unfold dKspec
  rw [if_pos rfl]
  show (match ks[0]?, ks[1]? with
    | some a, some b => some (b - a)
    | _, _ => none) = some (ks.getD 1 0 - ks.getD 0 0)
  rw [List.getElem?_eq_getElem h0, List.getElem?_eq_getElem h1]
  simp [List.getElem?_eq_getElem h0, List.getElem?_eq_getElem h1]

theorem dKspec_last (ks : List ℚ) (h2 : 2 ≤ ks.length) :
    dKspec ks (ks.length - 1) =
      some (ks.getD (ks.length - 1) 0 - ks.getD (ks.length - 2) 0) := by
  have hm1 : ks.length - 1 < ks.length := by omega
  have hm2 : ks.length - 2 < ks.length := by omega
  unfold dKspec
  rw [if_neg (by omega), if_pos rfl]
  show (match ks[ks.length - 1 - 1]?, ks[ks.length - 1]? with
    | some a, some b => some (b - a)
    | _, _ => none) =
    some (ks.getD (ks.length - 1) 0 - ks.getD (ks.length - 2) 0)
  rw [show ks.length - 1 - 1 = ks.length - 2 from by omega,
    List.getElem?_eq_getElem hm2, List.getElem?_eq_getElem hm1]
  simp [List.getElem?_eq_getElem hm1, List.getElem?_eq_getElem hm2]

theorem dKspec_mid (ks : List ℚ) (j : ℕ) (hin : j + 1 + 1 < ks.length) :
    dKspec ks (j + 1) =
      some ((|ks.getD (j + 1) 0 - ks.getD j 0| +
        |ks.getD (j + 1 + 1) 0 - ks.getD (j + 1) 0|) / 2) := by
  have hj : j < ks.length := by omega
  have hj1 : j + 1 < ks.length := by omega
  unfold dKspec
  rw [if_neg (by omega), if_neg (by omega)]
  show (match ks[j]?, ks[j + 1]?, ks[j + 1 + 1]? with
    | some a, some b, some c => some ((|b - a| + |c - b|) / 2)
    | _, _, _ => none) =
    some ((|ks.getD (j + 1) 0 - ks.getD j 0| +
      |ks.getD (j + 1 + 1) 0 - ks.getD (j + 1) 0|) / 2)
  rw [List.getElem?_eq_getElem hj, List.getElem?_eq_getElem hj1,
    List.getElem?_eq_getElem hin]
  simp [List.getElem?_eq_getElem hj, List.getElem?_eq_getElem hj1,
    List.getElem?_eq_getElem hin]

/-- The code's `delta_K` agrees with the spec's spacing rule at every row of
a sorted strip with at least two rows. -/
theorem deltaKcol_eq_dKspec (ks : List ℚ) (hs : List.Sorted (· < ·) ks)
    (h2 : 2 ≤ ks.length) (i : ℕ) (hi : i < ks.length) :
    ∃ d, deltaKcol ks i = some d ∧ dKspec ks i = some d := by
  by_cases hlast : i = ks.length - 1
  · subst hlast
    exact ⟨_, deltaKcol_last ks h2 hs, dKspec_last ks h2⟩
  · by_cases h0 : i = 0
    · subst h0
      exact ⟨_, deltaKcol_zero ks h2 hs, dKspec_zero ks h2⟩
    · obtain ⟨j, rfl⟩ : ∃ j, i = j + 1 := ⟨i - 1, by omega⟩
      have hin : j + 1 + 1 < ks.length := by omega
      refine ⟨_, deltaKcol_mid ks j hin, ?_⟩
      rw [dKspec_mid ks j hin]
      rw [abs_sub_comm (ks.getD (j + 1 + 1) 0) (ks.getD (j + 1) 0)]

/-- When the code's `Q` is a number, it is the number the spec's `Q` rule
prescribes. -/
theorem Qspec_eq_of_Qrow (atm : ℚ) (r : CorrRow) (q : ℚ)
    (h : Qrow atm r = some q) : Qspec atm r = q := by
  unfold Qrow at h
  unfold Qspec
  by_cases h1 : r.strike < atm
  · rw [if_pos h1] at h ⊢
    rw [h]
    rfl
  · rw [if_neg h1] at h ⊢
    by_cases hgt : atm < r.strike
    · rw [if_pos hgt] at h ⊢
      rw [h]
      rfl
    · rw [if_neg hgt] at h ⊢
      match hp : r.putMid, hc : r.callMid with
      | some p, some c =>
        rw [hp, hc] at h
        simp only [Option.some.injEq] at h
        simp [← h]
      | some p, none => rw [hp, hc] at h; exact absurd h (by simp)
      | none, some c => rw [hp, hc] at h; exact absurd h (by simp)
      | none, none => rw [hp, hc] at h; exact absurd h (by simp)

/-! ### Lemmas about `mapWithIdx` -/

theorem mapWithIdx_length {α β : Type} (f : ℕ → α → β) (k : ℕ) (l : List α) :
    (mapWithIdx f k l).length = l.length := by
  induction l generalizing k with
  | nil => rfl
  | cons a t ih => simp [mapWithIdx, ih]

theorem mapWithIdx_map {α β γ : Type} (f : ℕ → α → β) (g : β → γ) (k : ℕ)
    (l : List α) :
    (mapWithIdx f k l).map g = mapWithIdx (fun i a => g (f i a)) k l := by
  induction l generalizing k with
  | nil => rfl
  | cons a t ih => simp [mapWithIdx, ih]

theorem mapWithIdx_const {α β : Type} (g : α → β) (k : ℕ) (l : List α) :
    mapWithIdx (fun _ a => g a) k l = l.map g := by
  induction l generalizing k with
  | nil => rfl
  | cons a t ih => simp [mapWithIdx, ih]

/-- When every row's extracted value is defined, the NaN-skipping sum equals
the ordinary sum of the defined values. -/
theorem sum_filterMap_mapWithIdx {α β : Type} (mk : ℕ → α → β)
    (ex : β → Option ℚ) (G : ℕ → α → ℚ) (l : List α) (k : ℕ)
    (h : ∀ j r, l[j]? = some r → ex (mk (k + j) r) = some (G (k + j) r)) :
    ((mapWithIdx mk k l).filterMap ex).sum = (mapWithIdx G k l).sum := by
  induction l generalizing k with
  | nil => rfl
  | cons a t ih =>
    have h0 := h 0 a (by simp)
    rw [Nat.add_zero] at h0
    have hrec := ih (k + 1) (fun j r hr => by
      have hj := h (j + 1) r (by simpa using hr)
      rw [show k + (j + 1) = k + 1 + j from by omega] at hj
      exact hj)
    simp only [mapWithIdx, List.filterMap_cons, h0, List.sum_cons, hrec]

theorem correction_crows (df : List OptionRow) (fut atm : ℚ)
    (crows : List CorrRow)
    (h : cubic_spline_correction df fut = some (crows, atm)) :
    crows = df.map (fun r =>
      ⟨r.strike, r.callBid, r.callAsk, r.putBid, r.putAsk,
        (if 3 ≤ (callKnots df atm).length
          then fun k => naturalSplineEval (callKnots df atm) k
          else fun _ => none) r.strike,
        (if 3 ≤ (putKnots df atm).length
          then fun k => naturalSplineEval (putKnots df atm) k
          else fun _ => none) r.strike,
        callSpreadOf r, putSpreadOf r⟩) := by
  match hh : atmStrikeOpt df fut with
  | none =>
    rw [cubic_spline_correction_none df fut hh] at h
    exact absurd h (by simp)
  | some a =>
    rw [cubic_spline_correction_eq df fut a hh] at h
    have hpair := (Option.some.injEq .. ▸ h : _ = (crows, atm))
    have hcr : crows = df.map _ := (congrArg Prod.fst hpair).symm
    have hat : a = atm := congrArg Prod.snd hpair
    rw [hcr, hat]

theorem correction_atm (df : List OptionRow) (fut atm : ℚ)
    (crows : List CorrRow)
    (h : cubic_spline_correction df fut = some (crows, atm)) :
    atmStrikeOpt df fut = some atm := by
  match hh : atmStrikeOpt df fut with
  | none =>
    rw [cubic_spline_correction_none df fut hh] at h
    exact absurd h (by simp)
  | some a =>
    rw [cubic_spline_correction_eq df fut a hh] at h
    have hpair := (Option.some.injEq .. ▸ h : _ = (crows, atm))
    exact congrArg (fun x => some x.2) hpair

theorem correctedRows_eq (df : List OptionRow) (fut atm : ℚ)
    (crows : List CorrRow)
    (h : cubic_spline_correction df fut = some (crows, atm)) :
    correctedRows df fut = crows := by
  unfold correctedRows
  rw [h]

theorem atmOf_eq (df : List OptionRow) (fut atm : ℚ) (crows : List CorrRow)
    (h : cubic_spline_correction df fut = some (crows, atm)) :
    atmOf df fut = atm := by
  unfold atmOf
  rw [h]

theorem corr_length (df : List OptionRow) (fut atm : ℚ) (crows : List CorrRow)
    (h : cubic_spline_correction df fut = some (crows, atm)) :
    crows.length = df.length := by
  rw [correction_crows df fut atm crows h, List.length_map]

theorem corr_strike_pos (df : List OptionRow) (fut atm : ℚ)
    (crows : List CorrRow)
    (h : cubic_spline_correction df fut = some (crows, atm))
    (hpos : ∀ r ∈ df, 0 < r.strike) :
    ∀ r ∈ crows, 0 < r.strike := by
  intro r hr
  rw [correction_crows df fut atm crows h] at hr
  obtain ⟨r0, hr0, hre⟩ := List.mem_map.mp hr
  rw [← hre]
  exact hpos r0 hr0

/-- C1: for a well-formed strip (ordered positive strikes, at least two
rows, futures above the smallest strike, positive minutes to expiry) whose
per-row contribution prices are all defined, `compute_sigma` returns exactly
the spec's variance formula
`(2 * sum((delta_K / strike^2) * exp(ir*T) * Q) - (fut/ATM - 1)^2) / T`. -/
theorem compute_sigma_matches_spec_formula (df : List OptionRow)
    (mte fut ir : ℚ) (expFn : ℚ → ℚ)
    (hsort : List.Sorted (· < ·) (df.map (fun r => r.strike)))
    (hlen : 2 ≤ df.length)
    (hpos : ∀ r ∈ df, 0 < r.strike)
    (hmte : 0 < mte)
    (hfut : ((df.map (fun r => r.strike)).headD 0) < fut)
    (hQ : ∀ r ∈ correctedRows df fut, (Qrow (atmOf df fut) r).isSome = true) :
    (compute_sigma df mte fut ir expFn).map Prod.fst =
      some (specSigma df mte fut ir expFn) := by
  have hne : df ≠ [] := by
    intro hcon
    rw [hcon] at hlen
    simp at hlen
  obtain ⟨atm, hatm, hmem, hltf, hmax⟩ := atmStrikeOpt_spec df fut hne hfut
  have hcorr := cubic_spline_correction_eq df fut atm hatm
  set crows := df.map (fun r =>
      (⟨r.strike, r.callBid, r.callAsk, r.putBid, r.putAsk,
        (if 3 ≤ (callKnots df atm).length
          then fun k => naturalSplineEval (callKnots df atm) k
          else fun _ => none) r.strike,
        (if 3 ≤ (putKnots df atm).length
          then fun k => naturalSplineEval (putKnots df atm) k
          else fun _ => none) r.strike,
        callSpreadOf r, putSpreadOf r⟩ : CorrRow)) with hcrows
  have hQ2 : ∀ r ∈ crows, (Qrow atm r).isSome = true := by
    intro r hr
    have h1 := hQ r (by rw [correctedRows_eq df fut atm crows hcorr]; exact hr)
    rw [atmOf_eq df fut atm crows hcorr] at h1
    exact h1
  have hkseq : crows.map (fun r => r.strike) = df.map (fun r => r.strike) :=
    corr_strikes df fut crows atm hcorr
  have hatm_pos : 0 < atm := by
    obtain ⟨r0, hr0, hre⟩ := List.mem_map.mp hmem
    rw [← hre]
    exact hpos r0 hr0
  have hT : mte / 525600 ≠ 0 := div_ne_zero (ne_of_gt hmte) (by norm_num)
  have hcond : ¬ (mte / 525600 = 0 ∨ atm = 0) := by
    push_neg
    exact ⟨hT, ne_of_gt hatm_pos⟩
  have hsum : ((mapWithIdx (mkFullRow (df.map (fun r => r.strike)) atm
        (expFn (ir * (mte / 525600)))) 0 crows).filterMap
        (fun fr => fr.contribCol)).sum
      = (mapWithIdx (fun i r => (dKspec (df.map (fun r => r.strike)) i).getD 0
          / (CorrRow.strike r) ^ 2 * expFn (ir * (mte / 525600))
          * Qspec atm r) 0 crows).sum := by
    apply sum_filterMap_mapWithIdx
    intro j r hjr
    have hjlt : j < crows.length := by
      by_contra hcon
      rw [List.getElem?_eq_none (le_of_not_lt hcon)] at hjr
      exact absurd hjr (by simp)
    have hrmem : r ∈ crows := List.getElem?_mem hjr
    have hkslen : j < (df.map (fun r => r.strike)).length := by
      rw [List.length_map]
      rw [corr_length df fut atm crows hcorr] at hjlt
      exact hjlt
    obtain ⟨d, hdc, hds⟩ := deltaKcol_eq_dKspec (df.map (fun r => r.strike))
      hsort (by rw [List.length_map]; exact hlen) j hkslen
    obtain ⟨q, hq⟩ := Option.isSome_iff_exists.mp (hQ2 r hrmem)
    have hspos : 0 < r.strike := corr_strike_pos df fut atm crows hcorr hpos r hrmem
    rw [Nat.zero_add]
    show contribOf (df.map (fun r => r.strike)) atm
      (expFn (ir * (mte / 525600))) j r = _
    unfold contribOf
    rw [hdc, hq]
    show (if r.strike = 0 then none
      else some (d / (r.strike * r.strike) * expFn (ir * (mte / 525600)) * q)) =
      some ((dKspec (List.map (fun r => r.strike) df) j).getD 0 / r.strike ^ 2
        * expFn (ir * (mte / 525600)) * Qspec atm r)
    rw [if_neg (ne_of_gt hspos), hds, Qspec_eq_of_Qrow atm r q hq,
      Option.getD_some, pow_two]
  rw [show compute_sigma df mte fut ir expFn =
      (if mte / 525600 = 0 ∨ atm = 0 then none
        else some ((2 * ((mapWithIdx (mkFullRow (df.map (fun r => r.strike)) atm
          (expFn (ir * (mte / 525600)))) 0 crows).filterMap
          (fun fr => fr.contribCol)).sum
          - (fut / atm - 1) ^ 2) / (mte / 525600),
          mapWithIdx (mkFullRow (df.map (fun r => r.strike)) atm
            (expFn (ir * (mte / 525600)))) 0 crows)) from by
    unfold compute_sigma
    rw [hcorr]]
  rw [if_neg hcond]
  rw [show specSigma df mte fut ir expFn =
      sigmaSpec crows atm mte fut ir expFn from by
    unfold specSigma
    rw [hcorr]]
  unfold sigmaSpec
  simp only [hkseq, hsum, Option.map_some]
  rfl

theorem callKnots_pairwise (df : List OptionRow) (atm : ℚ)
    (hsort : List.Sorted (· < ·) (df.map (fun r => r.strike))) :
    (callKnots df atm).Pairwise (fun p q => p.1 < q.1) := by
  have h1 : df.Pairwise (fun a b => a.strike < b.strike) :=
    List.pairwise_map.mp hsort
  have h2 := (h1.filter (fun r => decide (atm ≤ r.strike))).filter
    (fun r => cleanCall r)
  unfold callKnots
  exact List.pairwise_map.mpr h2

theorem putKnots_pairwise (df : List OptionRow) (atm : ℚ)
    (hsort : List.Sorted (· < ·) (df.map (fun r => r.strike))) :
    (putKnots df atm).Pairwise (fun p q => p.1 < q.1) := by
  have h1 : df.Pairwise (fun a b => a.strike < b.strike) :=
    List.pairwise_map.mp hsort
  have h2 := (h1.filter (fun r => decide (r.strike ≤ atm))).filter
    (fun r => cleanPut r)
  unfold putKnots
  exact List.pairwise_map.mpr h2

theorem mem_callKnots (df : List OptionRow) (atm : ℚ) (r : OptionRow)
    (h1 : r ∈ df) (h2 : atm ≤ r.strike) (h3 : cleanCall r = true) :
    (r.strike, callMidOf r) ∈ callKnots df atm := by
  unfold callKnots
  apply List.mem_map_of_mem
  rw [List.mem_filter]
  exact ⟨List.mem_filter.mpr ⟨h1, by simpa using h2⟩, h3⟩

theorem mem_putKnots (df : List OptionRow) (atm : ℚ) (r : OptionRow)
    (h1 : r ∈ df) (h2 : r.strike ≤ atm) (h3 : cleanPut r = true) :
    (r.strike, putMidOf r) ∈ putKnots df atm := by
  unfold putKnots
  apply List.mem_map_of_mem
  rw [List.mem_filter]
  exact ⟨List.mem_filter.mpr ⟨h1, by simpa using h2⟩, h3⟩

/-- C4: the blend weights computed by `vix_calculator`,
`weight_1 = (mte_2 - 43200) / (mte_2 - mte_1)` and
`weight_2 = (43200 - mte_1) / (mte_2 - mte_1)`, sum to exactly `1` for any
`mte_1 < 43200 < mte_2`. -/
theorem vix_weights_sum_to_one (m1 m2 : ℚ) (h1 : m1 < 43200)
    (h2 : 43200 < m2) : weight1 m1 m2 + weight2 m1 m2 = 1 := by
  have hd : m2 - m1 ≠ 0 := sub_ne_zero.mpr (ne_of_gt (lt_trans h1 h2))
  unfold weight1 weight2
  field_simp

/-- Witness for C4 at `mte_1 = 12960`, `mte_2 = 53280`. -/
theorem vix_weights_sum_to_one_witness :
    (12960 : ℚ) < 43200 ∧ (43200 : ℚ) < 53280 ∧
      weight1 12960 53280 + weight2 12960 53280 = 1 :=
  ⟨by norm_num, by norm_num,
    vix_weights_sum_to_one 12960 53280 (by norm_num) (by norm_num)⟩

/-- C5: for a strictly ascending strip whose smallest strike is below the
futures price, the ATM strike selected by `cubic_spline_correction` is the
largest strike strictly less than the futures price; in particular a strike
equal to the futures price is never selected. -/
theorem atm_strike_is_largest_below_futures (df : List OptionRow) (fut : ℚ)
    (hsort : List.Sorted (· < ·) (df.map (fun r => r.strike)))
    (hne : df ≠ [])
    (hfut : ((df.map (fun r => r.strike)).headD 0) < fut) :
    ∃ k, atmStrikeOpt df fut = some k ∧ k ∈ df.map (fun r => r.strike) ∧
      k < fut ∧ ∀ s ∈ df.map (fun r => r.strike), s < fut → s ≤ k := by
  obtain ⟨k, h1, h2, h3, h4⟩ := atmStrikeOpt_spec df fut hne hfut
  exact ⟨k, h1, h2, h3, h4 hsort⟩

/-- Witness for C5 with the futures price exactly equal to the grid strike
`120`: the strike `110` strictly below it is selected. -/
theorem atm_strike_is_largest_below_futures_witness :
    List.Sorted (· < ·) (sampleStrip.map (fun r => r.strike)) ∧
      sampleStrip ≠ [] ∧
      ((sampleStrip.map (fun r => r.strike)).headD 0) < 120 ∧
      (∃ k, atmStrikeOpt sampleStrip 120 = some k ∧
        k ∈ sampleStrip.map (fun r => r.strike) ∧ k < 120 ∧
        ∀ s ∈ sampleStrip.map (fun r => r.strike), s < 120 → s ≤ k) :=
  ⟨by decide, by decide, by decide,
    atm_strike_is_largest_below_futures sampleStrip 120 (by decide) (by decide)
      (by decide)⟩

/-- C6: the strike spacing used by `compute_sigma` averages the two
neighbour gaps on interior rows, while the first row uses only its distance
to the next strike and the last row only its distance to the previous
strike. -/
theorem delta_K_boundary_and_interior (ks : List ℚ)
    (hsort : List.Sorted (· < ·) ks) (h2 : 2 ≤ ks.length) :
    deltaKcol ks 0 = some (ks.getD 1 0 - ks.getD 0 0) ∧
    deltaKcol ks (ks.length - 1) =
      some (ks.getD (ks.length - 1) 0 - ks.getD (ks.length - 2) 0) ∧
    ∀ i, 0 < i → i < ks.length - 1 →
      deltaKcol ks i = some ((|ks.getD i 0 - ks.getD (i - 1) 0| +
        |ks.getD (i + 1) 0 - ks.getD i 0|) / 2) := by
  refine ⟨deltaKcol_zero ks h2 hsort, deltaKcol_last ks h2 hsort, ?_⟩
  intro i hi0 hin
  obtain ⟨j, rfl⟩ : ∃ j, i = j + 1 := ⟨i - 1, by omega⟩
  rw [deltaKcol_mid ks j (by omega)]
  rw [show j + 1 - 1 = j from rfl]
  rw [abs_sub_comm (ks.getD (j + 1) 0) (ks.getD (j + 1 + 1) 0)]

/-- Witness for C6 on the five-strike grid `[100, 110, 120, 130, 140]`. -/
theorem delta_K_boundary_and_interior_witness :
    List.Sorted (· < ·) [(100 : ℚ), 110, 120, 130, 140] ∧
      2 ≤ [(100 : ℚ), 110, 120, 130, 140].length ∧
      (deltaKcol [(100 : ℚ), 110, 120, 130, 140] 0 =
        some ([(100 : ℚ), 110, 120, 130, 140].getD 1 0 -
          [(100 : ℚ), 110, 120, 130, 140].getD 0 0) ∧
      deltaKcol [(100 : ℚ), 110, 120, 130, 140]
          ([(100 : ℚ), 110, 120, 130, 140].length - 1) =
        some ([(100 : ℚ), 110, 120, 130, 140].getD
            ([(100 : ℚ), 110, 120, 130, 140].length - 1) 0 -
          [(100 : ℚ), 110, 120, 130, 140].getD
            ([(100 : ℚ), 110, 120, 130, 140].length - 2) 0) ∧
      ∀ i, 0 < i → i < [(100 : ℚ), 110, 120, 130, 140].length - 1 →
        deltaKcol [(100 : ℚ), 110, 120, 130, 140] i =
          some ((|[(100 : ℚ), 110, 120, 130, 140].getD i 0 -
            [(100 : ℚ), 110, 120, 130, 140].getD (i - 1) 0| +
            |[(100 : ℚ), 110, 120, 130, 140].getD (i + 1) 0 -
            [(100 : ℚ), 110, 120, 130, 140].getD i 0|) / 2)) :=
  ⟨by decide, by decide,
    delta_K_boundary_and_interior [(100 : ℚ), 110, 120, 130, 140] (by decide)
      (by decide)⟩

/-- C10: for a nonempty sorted strip the ATM row lookup succeeds exactly
when the futures price strictly exceeds the smallest strike; when the
smallest strike is at or above the futures price, `cubic_spline_correction`
and `compute_sigma` fail with the modelled row-lookup error instead of
returning a value. -/
theorem atm_lookup_requires_strike_below_futures (df : List OptionRow)
    (mte fut ir : ℚ) (expFn : ℚ → ℚ)
    (hsort : List.Sorted (· < ·) (df.map (fun r => r.strike)))
    (hne : df ≠ []) :
    ((atmStrikeOpt df fut).isSome = true ↔
      ((df.map (fun r => r.strike)).headD 0) < fut) ∧
    (fut ≤ (df.map (fun r => r.strike)).headD 0 →
      atmStrikeOpt df fut = none ∧
      cubic_spline_correction df fut = none ∧
      compute_sigma df mte fut ir expFn = none) := by
  constructor
  · constructor
    · intro h
      by_contra hcon
      rw [atmStrikeOpt_none_of_le df fut (not_lt.mp hcon)] at h
      simp at h
    · intro h
      obtain ⟨k, h1, h2, h3, h4⟩ := atmStrikeOpt_spec df fut hne h
      rw [h1]
      rfl
  · intro h
    have h1 := atmStrikeOpt_none_of_le df fut h
    have h2 := cubic_spline_correction_none df fut h1
    exact ⟨h1, h2, compute_sigma_none df mte fut ir expFn h2⟩

/-- Witness for C10 with a futures price of `90`, below the smallest strike
`100` of the sample strip. -/
theorem atm_lookup_requires_strike_below_futures_witness :
    List.Sorted (· < ·) (sampleStrip.map (fun r => r.strike)) ∧
      sampleStrip ≠ [] ∧
      (((atmStrikeOpt sampleStrip 90).isSome = true ↔
        ((sampleStrip.map (fun r => r.strike)).headD 0) < 90) ∧
      ((90 : ℚ) ≤ (sampleStrip.map (fun r => r.strike)).headD 0 →
        atmStrikeOpt sampleStrip 90 = none ∧
        cubic_spline_correction sampleStrip 90 = none ∧
        compute_sigma sampleStrip 1 90 0 (fun x => 1 + x) = none)) :=
  ⟨by decide, by decide,
    atm_lookup_requires_strike_below_futures sampleStrip 1 90 0
      (fun x => 1 + x) (by decide) (by decide)⟩

/-- C7: with at least three clean knots on a side, every row's corrected mid
on that side is the natural-spline evaluation at the row's strike, and it is
a number exactly when the strike lies within the range spanned by that
side's clean knot strikes — strikes outside the range get NaN, never an
extrapolated value. -/
theorem spline_no_extrapolation (df : List OptionRow) (fut : ℚ)
    (hsort : List.Sorted (· < ·) (df.map (fun r => r.strike)))
    (hc : (cubic_spline_correction df fut).isSome = true) :
    (3 ≤ (callKnots df (atmOf df fut)).length →
      ∀ r ∈ correctedRows df fut,
        r.callMid = naturalSplineEval (callKnots df (atmOf df fut)) r.strike ∧
        ((r.callMid).isSome = true ↔
          (∃ p ∈ callKnots df (atmOf df fut), p.1 ≤ r.strike) ∧
          (∃ p ∈ callKnots df (atmOf df fut), r.strike ≤ p.1))) ∧
    (3 ≤ (putKnots df (atmOf df fut)).length →
      ∀ r ∈ correctedRows df fut,
        r.putMid = naturalSplineEval (putKnots df (atmOf df fut)) r.strike ∧
        ((r.putMid).isSome = true ↔
          (∃ p ∈ putKnots df (atmOf df fut), p.1 ≤ r.strike) ∧
          (∃ p ∈ putKnots df (atmOf df fut), r.strike ≤ p.1))) := by
  obtain ⟨pr, hpr⟩ := Option.isSome_iff_exists.mp hc
  obtain ⟨crows, atm⟩ := pr
  have hcr := correction_crows df fut atm crows hpr
  rw [correctedRows_eq df fut atm crows hpr, atmOf_eq df fut atm crows hpr]
  constructor
  · intro h3 r hr
    rw [hcr] at hr
    obtain ⟨r0, hr0, rfl⟩ := List.mem_map.mp hr
    constructor
    · simp [if_pos h3]
    · have hiff := naturalSplineEval_isSome_iff (callKnots df atm) r0.strike
        (callKnots_pairwise df atm hsort)
      simpa [if_pos h3] using hiff
  · intro h3 r hr
    rw [hcr] at hr
    obtain ⟨r0, hr0, rfl⟩ := List.mem_map.mp hr
    constructor
    · simp [if_pos h3]
    · have hiff := naturalSplineEval_isSome_iff (putKnots df atm) r0.strike
        (putKnots_pairwise df atm hsort)
      simpa [if_pos h3] using hiff

/-- Witness for C7 on the sample strip with futures price `125`. -/
theorem spline_no_extrapolation_witness :
    List.Sorted (· < ·) (sampleStrip.map (fun r => r.strike)) ∧
      (cubic_spline_correction sampleStrip 125).isSome = true ∧
      ((3 ≤ (callKnots sampleStrip (atmOf sampleStrip 125)).length →
        ∀ r ∈ correctedRows sampleStrip 125,
          r.callMid = naturalSplineEval
            (callKnots sampleStrip (atmOf sampleStrip 125)) r.strike ∧
          ((r.callMid).isSome = true ↔
            (∃ p ∈ callKnots sampleStrip (atmOf sampleStrip 125),
              p.1 ≤ r.strike) ∧
            (∃ p ∈ callKnots sampleStrip (atmOf sampleStrip 125),
              r.strike ≤ p.1))) ∧
      (3 ≤ (putKnots sampleStrip (atmOf sampleStrip 125)).length →
        ∀ r ∈ correctedRows sampleStrip 125,
          r.putMid = naturalSplineEval
            (putKnots sampleStrip (atmOf sampleStrip 125)) r.strike ∧
          ((r.putMid).isSome = true ↔
            (∃ p ∈ putKnots sampleStrip (atmOf sampleStrip 125),
              p.1 ≤ r.strike) ∧
            (∃ p ∈ putKnots sampleStrip (atmOf sampleStrip 125),
              r.strike ≤ p.1)))) :=
  ⟨by decide, by decide,
    spline_no_extrapolation sampleStrip 125 (by decide) (by decide)⟩

/-- C8: a row whose strike is one of a side's clean knot strikes keeps
exactly its original mid price on that side after the correction — the
natural cubic spline interpolates through its own knots. -/
theorem spline_exact_at_knots (df : List OptionRow) (fut : ℚ)
    (hsort : List.Sorted (· < ·) (df.map (fun r => r.strike)))
    (hc : (cubic_spline_correction df fut).isSome = true) :
    ∀ r ∈ df,
      (3 ≤ (callKnots df (atmOf df fut)).length → atmOf df fut ≤ r.strike →
        cleanCall r = true →
        ∃ r2 ∈ correctedRows df fut, r2.strike = r.strike ∧
          r2.callMid = some (callMidOf r)) ∧
      (3 ≤ (putKnots df (atmOf df fut)).length → r.strike ≤ atmOf df fut →
        cleanPut r = true →
        ∃ r2 ∈ correctedRows df fut, r2.strike = r.strike ∧
          r2.putMid = some (putMidOf r)) := by
  obtain ⟨pr, hpr⟩ := Option.isSome_iff_exists.mp hc
  obtain ⟨crows, atm⟩ := pr
  have hcr := correction_crows df fut atm crows hpr
  rw [correctedRows_eq df fut atm crows hpr, atmOf_eq df fut atm crows hpr]
  intro r hr
  constructor
  · intro h3 hge hclean
    refine ⟨⟨r.strike, r.callBid, r.callAsk, r.putBid, r.putAsk,
      (if 3 ≤ (callKnots df atm).length
        then fun k => naturalSplineEval (callKnots df atm) k
        else fun _ => none) r.strike,
      (if 3 ≤ (putKnots df atm).length
        then fun k => naturalSplineEval (putKnots df atm) k
        else fun _ => none) r.strike,
      callSpreadOf r, putSpreadOf r⟩, ?_, rfl, ?_⟩
    · rw [hcr]
      exact List.mem_map_of_mem _ hr
    · show (if 3 ≤ (callKnots df atm).length
        then fun k => naturalSplineEval (callKnots df atm) k
        else fun _ => none) r.strike = some (callMidOf r)
      rw [if_pos h3]
      exact naturalSplineEval_knot (callKnots df atm) r.strike (callMidOf r)
        (callKnots_pairwise df atm hsort) (mem_callKnots df atm r hr hge hclean)
  · intro h3 hle hclean
    refine ⟨⟨r.strike, r.callBid, r.callAsk, r.putBid, r.putAsk,
      (if 3 ≤ (callKnots df atm).length
        then fun k => naturalSplineEval (callKnots df atm) k
        else fun _ => none) r.strike,
      (if 3 ≤ (putKnots df atm).length
        then fun k => naturalSplineEval (putKnots df atm) k
        else fun _ => none) r.strike,
      callSpreadOf r, putSpreadOf r⟩, ?_, rfl, ?_⟩
    · rw [hcr]
      exact List.mem_map_of_mem _ hr
    · show (if 3 ≤ (putKnots df atm).length
        then fun k => naturalSplineEval (putKnots df atm) k
        else fun _ => none) r.strike = some (putMidOf r)
      rw [if_pos h3]
      exact naturalSplineEval_knot (putKnots df atm) r.strike (putMidOf r)
        (putKnots_pairwise df atm hsort) (mem_putKnots df atm r hr hle hclean)

/-- Witness for C8 on the sample strip with futures price `125`. -/
theorem spline_exact_at_knots_witness :
    List.Sorted (· < ·) (sampleStrip.map (fun r => r.strike)) ∧
      (cubic_spline_correction sampleStrip 125).isSome = true ∧
      (∀ r ∈ sampleStrip,
        (3 ≤ (callKnots sampleStrip (atmOf sampleStrip 125)).length →
          atmOf sampleStrip 125 ≤ r.strike → cleanCall r = true →
          ∃ r2 ∈ correctedRows sampleStrip 125, r2.strike = r.strike ∧
            r2.callMid = some (callMidOf r)) ∧
        (3 ≤ (putKnots sampleStrip (atmOf sampleStrip 125)).length →
          r.strike ≤ atmOf sampleStrip 125 → cleanPut r = true →
          ∃ r2 ∈ correctedRows sampleStrip 125, r2.strike = r.strike ∧
            r2.putMid = some (putMidOf r))) :=
  ⟨by decide, by decide,
    spline_exact_at_knots sampleStrip 125 (by decide) (by decide)⟩

theorem compute_sigma_table_base (df : List OptionRow) (mte fut ir : ℚ)
    (expFn : ℚ → ℚ) (sg : ℚ) (tbl : List FullRow)
    (h : compute_sigma df mte fut ir expFn = some (sg, tbl)) :
    tbl.map baseOf = df := by
  match hc : cubic_spline_correction df fut with
  | none =>
    rw [compute_sigma_none df mte fut ir expFn hc] at h
    exact absurd h (by simp)
  | some (crows, atm) =>
    rw [show compute_sigma df mte fut ir expFn =
        (if mte / 525600 = 0 ∨ atm = 0 then none
          else some ((2 * ((mapWithIdx (mkFullRow (df.map (fun r => r.strike))
            atm (expFn (ir * (mte / 525600)))) 0 crows).filterMap
            (fun fr => fr.contribCol)).sum
            - (fut / atm - 1) ^ 2) / (mte / 525600),
            mapWithIdx (mkFullRow (df.map (fun r => r.strike)) atm
              (expFn (ir * (mte / 525600)))) 0 crows)) from by
      unfold compute_sigma
      rw [hc]] at h
    by_cases hcond : (mte / 525600 = 0 ∨ atm = 0)
    · rw [if_pos hcond] at h
      exact absurd h (by simp)
    · rw [if_neg hcond] at h
      have hpair := (Option.some.injEq .. ▸ h : _ = (sg, tbl))
      have htbl : tbl = mapWithIdx (mkFullRow (df.map (fun r => r.strike)) atm
          (expFn (ir * (mte / 525600)))) 0 crows :=
        (congrArg Prod.snd hpair).symm
      rw [htbl, mapWithIdx_map]
      simp only [mkFullRow, baseOf]
      rw [mapWithIdx_const (fun r : CorrRow =>
        (⟨r.strike, r.callBid, r.callAsk, r.putBid, r.putAsk⟩ : OptionRow))]
      rw [correction_crows df fut atm crows hc, List.map_map]
      exact List.map_id df

theorem vix_calculator_tables (d : VixData) (expFn sqrtFn : ℚ → ℚ)
    (v : ℚ) (t1 t2 : List FullRow)
    (h : vix_calculator d expFn sqrtFn = some (v, t1, t2)) :
    (∃ s1, compute_sigma d.optionChain1 d.mte1 d.fut1 d.ir1 expFn =
      some (s1, t1)) ∧
    (∃ s2, compute_sigma d.optionChain2 d.mte2 d.fut2 d.ir2 expFn =
      some (s2, t2)) := by
  match h1 : compute_sigma d.optionChain1 d.mte1 d.fut1 d.ir1 expFn with
  | none =>
    rw [show vix_calculator d expFn sqrtFn = none from by
      unfold vix_calculator
      rw [h1]] at h
    exact absurd h (by simp)
  | some (s1, t1a) =>
    match h2 : compute_sigma d.optionChain2 d.mte2 d.fut2 d.ir2 expFn with
    | none =>
      rw [show vix_calculator d expFn sqrtFn = none from by
        unfold vix_calculator
        rw [h1, h2]] at h
      exact absurd h (by simp)
    | some (s2, t2a) =>
      rw [show vix_calculator d expFn sqrtFn =
          (if d.mte2 - d.mte1 = 0 then none
            else some (100 * sqrtFn ((525600 / 43200) *
              (d.mte1 / 525600 * s1 * weight1 d.mte1 d.mte2 +
                d.mte2 / 525600 * s2 * weight2 d.mte1 d.mte2)), t1a, t2a))
          from by
        unfold vix_calculator
        rw [h1, h2]] at h
      by_cases hz : d.mte2 - d.mte1 = 0
      · rw [if_pos hz] at h
        exact absurd h (by simp)
      · rw [if_neg hz] at h
        have hpair := (Option.some.injEq .. ▸ h : _ = (v, t1, t2))
        have ht1 : t1a = t1 := congrArg (fun x => x.2.1) hpair
        have ht2 : t2a = t2 := congrArg (fun x => x.2.2) hpair
        exact ⟨⟨s1, by rw [ht1]⟩, ⟨s2, by rw [ht2]⟩⟩

/-- C2 (code bug): on `thinPutStrip` with futures price `115` the put side
has fewer than three clean quotes, so every corrected put mid is NaN — yet
`compute_sigma` still returns a number, because the pandas `sum` used for
the contributions silently skips NaN instead of propagating it. -/
theorem missing_put_side_still_returns_finite :
    (putKnots thinPutStrip (atmOf thinPutStrip 115)).length < 3 ∧
    (∀ r ∈ correctedRows thinPutStrip 115, r.putMid = none) ∧
    (compute_sigma thinPutStrip 12960 115 0 (fun x => 1 + x)).isSome = true :=
  ⟨by decide, by decide, by decide⟩

/-- C3 (code bug): with `mte_1 = 50000 ≥ 43200` and `mte_2 = 60000` — a
degenerate expiry spacing the spec says must fail fast — `vix_calculator`
performs no validation and returns a numeric index built from extrapolated
blend weights. -/
theorem degenerate_mte_returns_value :
    degenerateVixData.mte1 = 50000 ∧ (43200 : ℚ) ≤ degenerateVixData.mte1 ∧
    (vix_calculator degenerateVixData (fun x => 1 + x)
      (fun x => x)).isSome = true :=
  ⟨rfl, by decide, by decide⟩

/-- C9 counterexample: after `compute_sigma` runs on a caller's table the
column set is no longer the original five columns — the derived columns have
been added in place, so the caller-owned table is changed. -/
theorem caller_table_columns_change :
    colsAfterComputeSigma dfColumns ≠ dfColumns := by decide

/-- C9 amended: `vix_calculator` takes no copy, so the caller-owned tables
gain the nine derived columns in place; the five original columns' values
are preserved row by row, and no other state is shared between the two
chains. -/
theorem vix_mutates_tables_preserving_base (d : VixData)
    (expFn sqrtFn : ℚ → ℚ)
    (h : (vix_calculator d expFn sqrtFn).isSome = true) :
    (vixTables d expFn sqrtFn).1.map baseOf = d.optionChain1 ∧
    (vixTables d expFn sqrtFn).2.map baseOf = d.optionChain2 ∧
    colsAfterComputeSigma dfColumns = dfColumns ++ derivedCols := by
  obtain ⟨pr, hpr⟩ := Option.isSome_iff_exists.mp h
  obtain ⟨v, t1, t2⟩ := pr
  have htab : vixTables d expFn sqrtFn = (t1, t2) := by
    unfold vixTables
    rw [hpr]
  obtain ⟨⟨s1, h1⟩, ⟨s2, h2⟩⟩ := vix_calculator_tables d expFn sqrtFn v t1 t2 hpr
  rw [htab]
  exact ⟨compute_sigma_table_base d.optionChain1 d.mte1 d.fut1 d.ir1 expFn
      s1 t1 h1,
    compute_sigma_table_base d.optionChain2 d.mte2 d.fut2 d.ir2 expFn
      s2 t2 h2, by decide⟩

/-- Witness for the amended C9 on the concrete input `degenerateVixData`. -/
theorem vix_mutates_tables_preserving_base_witness :
    (vix_calculator degenerateVixData (fun x => 1 + x)
        (fun x => x)).isSome = true ∧
    ((vixTables degenerateVixData (fun x => 1 + x) (fun x => x)).1.map baseOf =
        degenerateVixData.optionChain1 ∧
      (vixTables degenerateVixData (fun x => 1 + x) (fun x => x)).2.map baseOf =
        degenerateVixData.optionChain2 ∧
      colsAfterComputeSigma dfColumns = dfColumns ++ derivedCols) :=
  ⟨by decide,
    vix_mutates_tables_preserving_base degenerateVixData (fun x => 1 + x)
      (fun x => x) (by decide)⟩

/-- Witness for C1 on the sample strip (both sides have three clean knots,
every row's contribution price is defined). -/
theorem compute_sigma_matches_spec_formula_witness :
    List.Sorted (· < ·) (sampleStrip.map (fun r => r.strike)) ∧
      2 ≤ sampleStrip.length ∧
      (∀ r ∈ sampleStrip, 0 < r.strike) ∧
      (0 : ℚ) < 12960 ∧
      ((sampleStrip.map (fun r => r.strike)).headD 0) < 125 ∧
      (∀ r ∈ correctedRows sampleStrip 125,
        (Qrow (atmOf sampleStrip 125) r).isSome = true) ∧
      (compute_sigma sampleStrip 12960 125 0 (fun x => 1 + x)).map Prod.fst =
        some (specSigma sampleStrip 12960 125 0 (fun x => 1 + x)) :=
  ⟨by decide, by decide, by decide, by norm_num, by decide, by decide,
    compute_sigma_matches_spec_formula sampleStrip 12960 125 0 (fun x => 1 + x)
      (by decide) (by decide) (by decide) (by norm_num) (by decide) (by decide)⟩

end IndiaVix
